import Mathlib

/-!
Shallow embedding of the `robo` HTTP router (src/mux.go).

The dispatch core (`Mux.Add`, `Mux.ServeRoboHTTP`, `Mux.ServeHTTP`,
`queue.serveNext`, `Parameters.Get`/`set`) is translated directly from the
Go source.  Handlers are opaque to that core: the Go `Handler` interface is
embedded as a tagged identifier type, and a single dispatch step is embedded
as a pure state-transition function whose result records which handler (if
any) the step invokes.  The pattern compiler and the matcher (`newRoute`'s
validation and `route.Check`) are left as `@todo` stubs in the source, so
those two pieces are modelled from the spec (sections 4.1 and 4.2); each such
definition carries a doc comment saying so.
-/

/-- Compiled representation of one slash-delimited piece of a route pattern
(spec section 3): a literal, a named parameter, or a trailing wildcard. -/
inductive Segment : Type where
  | literal (text : String)
  | param (name : String)
  | wildcard (name : String)
deriving Repr, DecidableEq

/-- Internal handler values, as produced by `Mux.Add`'s adaptation step
(src/mux.go lines 79-92).  The Go `Handler` interface is opaque to the
dispatch core, so each variant just carries an identifying tag: `handler` is
a value already implementing `robo.Handler`, `handlerFunc` is the
`HandlerFunc` adaptor around a `func(robo.ResponseWriter, *robo.Request)`,
and `httpHandler` is the `httpHandler` wrapper around an `http.Handler`
(including `http.HandlerFunc` wrappings). -/
inductive Handler : Type where
  | handler (id : Nat)
  | handlerFunc (id : Nat)
  | httpHandler (id : Nat)
deriving Repr, DecidableEq

/-- Dynamic shape of one argument passed to `Mux.Add`'s variadic
`...interface\x7b\x7d` parameter, defunctionalizing the type switch of
src/mux.go lines 80-91: the first four constructors are the four accepted
shapes (in the switch's order), `invalid` is any other dynamic type
(the `default` case). -/
inductive HandlerArg : Type where
  | roboHandler (id : Nat)
  | roboFunc (id : Nat)
  | httpHandler (id : Nat)
  | httpFunc (id : Nat)
  | invalid (id : Nat)
deriving Repr, DecidableEq

/-- The `Parameters` type of src/mux.go lines 186-189: a map of captured
values plus an optional parent pointer.  The Go struct's nilable
`parent *Parameters` field is embedded by the two constructors (`root` has
parent nil, `child` has a non-nil parent); the Go `values map[string]string`
field is embedded as an association list with unique keys, a nil map being
the empty list (a lookup in a nil Go map yields `""`, exactly like a lookup
in the empty list below). -/
inductive Parameters : Type where
  | root (values : List (String × String))
  | child (parent : Parameters) (values : List (String × String))
deriving Repr, DecidableEq

/-- Go map read `values[key]`: the stored value, or `""` when absent. -/
def lookupValues : List (String × String) → String → String
  | [], _ => ""
  | (k, v) :: rest, key => if k = key then v else lookupValues rest key

/-- Go map write `values[key] = value`: replace an existing binding,
otherwise add one. -/
def setValues : List (String × String) → String → String → List (String × String)
  | [], key, value => [(key, value)]
  | (k, v) :: rest, key, value =>
    if k = key then (k, value) :: rest else (k, v) :: setValues rest key value

/-- The parent pointer of a scope (`p.parent`), `none` embedding Go nil. -/
def Parameters.parent : Parameters → Option Parameters
  | .root _ => none
  | .child p _ => some p

/-- The value map of a scope (`p.values`). -/
def Parameters.values : Parameters → List (String × String)
  | .root vs => vs
  | .child _ vs => vs

/-- The assignment `p.parent = par` performed by `queue.serveNext`
(src/mux.go line 176). -/
def Parameters.withParent : Parameters → Option Parameters → Parameters
  | p, none => .root p.values
  | p, some q => .child q p.values

/-- `Parameters.set` (src/mux.go lines 192-197): assign a value to a key
in this scope's own map. -/
def Parameters.set (p : Parameters) (key value : String) : Parameters :=
  match p with
  | .root vs => .root (setValues vs key value)
  | .child par vs => .child par (setValues vs key value)

/-- `Parameters.Get` (src/mux.go lines 201-211): return this scope's own
binding when it is non-empty, otherwise recurse into the parent when there is
one, otherwise return `""`.  (The Go code first checks `p.values != nil`;
skipping a nil map and looking up `""` in it are indistinguishable, so the
nil map is embedded as the empty association list.) -/
def Parameters.Get : Parameters → String → String
  | .root vs, key =>
    let v := lookupValues vs key
    if v ≠ "" then v else ""
  | .child par vs, key =>
    let v := lookupValues vs key
    if v ≠ "" then v else par.Get key

/-- The scope together with all its ancestors, innermost first; used to state
the exhaustion case of the `Get` lookup chain. -/
def Parameters.chain : Parameters → List Parameters
  | .root vs => [.root vs]
  | .child par vs => .child par vs :: par.chain

/-- The binding this scope itself holds for `key` (empty string when absent),
before any delegation to the parent. -/
def Parameters.ownValue (p : Parameters) (key : String) : String :=
  lookupValues p.values key

/-- Split a list of characters on a separator; mirrors the behaviour of Go's
`strings.Split` (and Lean's `String.splitOn`): empty pieces are kept, so
splitting `"/a/"` on the slash yields `["", "a", ""]`. -/
def splitChars (sep : Char) : List Char → List (List Char)
  | [] => [[]]
  | c :: cs =>
    let rest := splitChars sep cs
    if c = sep then [] :: rest
    else
      match rest with
      | r :: rs => (c :: r) :: rs
      | [] => [[c]]

/-- Split a string on the slash character, keeping empty pieces. -/
def splitSlash (s : String) : List String :=
  (splitChars '/' s.data).map String.mk

/-- Join path segments with the slash character (spec section 4.2: a
Wildcard captures "all remaining path segments at once (joined with `/`)"). -/
def joinSlash : List String → String
  | [] => ""
  | [s] => s
  | s :: rest => s ++ "/" ++ joinSlash rest

/-- Modelled from the spec: the request path split into segments (section
4.2 takes "an incoming path (already split or splittable into segments by
`/`)").  An HTTP path starts with a slash; the empty leading piece that the
slash produces is dropped, and all further pieces (including empty ones —
"an empty path segment does not match a Param") are kept. -/
def splitPath (path : String) : List String :=
  match splitSlash path with
  | "" :: rest => rest
  | ps => ps

/-- Modelled from the spec (section 4.1): classify one non-empty pattern
piece — the `:` sigil marks a Param, the `*` sigil marks a Wildcard,
anything else is a Literal. -/
def classify (piece : String) : Segment :=
  match piece.data with
  | ':' :: rest => .param (String.mk rest)
  | '*' :: rest => .wildcard (String.mk rest)
  | _ => .literal piece

/-- Modelled from the spec (section 4.1): "split the pattern on `/`,
classify each non-empty piece". -/
def patternSegments (pattern : String) : List Segment :=
  ((splitSlash pattern).filter (fun s => s != "")).map classify

/-- The captured name of a Param or Wildcard segment. -/
def segName : Segment → Option String
  | .literal _ => none
  | .param n => some n
  | .wildcard n => some n

/-- Whether a segment is a Wildcard. -/
def isWildcardSeg : Segment → Bool
  | .wildcard _ => true
  | _ => false

/-- The names captured by a pattern's Param and Wildcard segments, in order. -/
def patternNames (pattern : String) : List String :=
  (patternSegments pattern).filterMap segName

/-- Whether some segment other than the last one is a Wildcard (spec 4.1
failure condition "a Wildcard segment that is not the last segment"). -/
def wildcardNotLast : List Segment → Bool
  | [] => false
  | [_] => false
  | s :: rest => isWildcardSeg s || wildcardNotLast rest

/-- Whether the list holds a repeated name (spec 4.1 failure condition "two
Param/Wildcard segments sharing the same captured name"). -/
def hasDup : List String → Bool
  | [] => false
  | n :: rest => rest.contains n || hasDup rest

/-- Modelled from the spec (section 4.1, Pattern Compiler): compile a pattern
string into its segments, failing (`none`) on an empty pattern, a Wildcard
that is not last, a duplicated captured name, or an empty captured name.
This component is an `@todo` stub in src/mux.go (`newRoute` compiles
nothing), so it is reconstructed from the spec's words. -/
def compilePattern (pattern : String) : Option (List Segment) :=
  if pattern = "" then none
  else
    let segs := patternSegments pattern
    let names := segs.filterMap segName
    if wildcardNotLast segs || hasDup names || names.any (fun n => n == "") then
      none
    else some segs

/-- Modelled from the spec (section 4.2, rule 2): walk pattern segments and
path segments in lockstep, returning the captured name/value pairs on a
match.  A Literal needs byte-equality, a Param consumes exactly one non-empty
path segment, a Wildcard ends the walk successfully, capturing all remaining
path segments joined with `/` (possibly none, capturing `""`); without a
Wildcard the two segment counts must be equal. -/
def matchSegments : List Segment → List String → Option (List (String × String))
  | [], [] => some []
  | [], _ :: _ => none
  | .literal _ :: _, [] => none
  | .param _ :: _, [] => none
  | .literal t :: segs, p :: ps =>
    if t = p then matchSegments segs ps else none
  | .param n :: segs, p :: ps =>
    if p = "" then none else (matchSegments segs ps).map (fun caps => (n, p) :: caps)
  | .wildcard n :: _, ps => some [(n, joinSlash ps)]

/-- Modelled from the spec (section 4.2, rule 4): build a fresh
ParameterScope from the captured pairs; it has no parent yet. -/
def buildScope (captures : List (String × String)) : Parameters :=
  captures.foldl (fun p kv => p.set kv.1 kv.2) (Parameters.root [])

/-- Modelled from the spec (section 4.2, rule 1): the incoming method must
equal the route's method exactly, or the route's method is the wildcard
method accepting any verb (embedded as the string `*`). -/
def methodMatches (routeMethod method : String) : Bool :=
  routeMethod == method || routeMethod == "*"

/-- The route type of src/mux.go lines 111-117: method, raw pattern and the
adapted handler chain. -/
structure route : Type where
  method : String
  pattern : String
  handlers : List Handler
deriving Repr, DecidableEq

/-- `newRoute` (src/mux.go lines 121-130) as it stands in the source: its
documented pattern compilation is an `@todo` stub, so it merely builds the
record. -/
def newRoute (method pattern : String) (handlers : List Handler) : route :=
  { method := method, pattern := pattern, handlers := handlers }

/-- Modelled from the spec: `newRoute` is documented to panic when the
pattern contains a syntax error (src/mux.go lines 119-120), but its body is
an `@todo` stub that never validates, so registration-time validation is
reconstructed as the section 4.1 pattern compiler; `none` embeds the panic. -/
def newRouteChecked (method pattern : String) (handlers : List Handler) : Option route :=
  (compilePattern pattern).map (fun _ => newRoute method pattern handlers)

/-- Modelled from the spec (section 4.2, Matcher): `route.Check`
(src/mux.go lines 134-137) is an `@todo` stub in the source, so it is
reconstructed from the spec — compile the stored pattern, require the method
to match, walk the segments, and on success return the fresh ParameterScope
(its parent yet unassigned, per rule 4).  The source's documented contract
(lines 132-133) that the scope is non-nil whenever the first component is
true holds by construction. -/
def route.Check (r : route) (method path : String) : Bool × Option Parameters :=
  match compilePattern r.pattern with
  | none => (false, none)
  | some segs =>
    if methodMatches r.method method then
      match matchSegments segs (splitPath path) with
      | none => (false, none)
      | some caps => (true, some (buildScope caps))
    else (false, none)

/-- The queue type of src/mux.go lines 140-149, the per-request routing
state: the handlers remaining in the currently executing route, the routes
yet to be checked, and the parent and current URL-parameter scopes (both
nilable pointers in Go, hence `Option`). -/
structure queue : Type where
  handlers : List Handler
  routes : List route
  parent : Option Parameters
  self : Option Parameters
deriving Repr, DecidableEq

/-- Result of one `serveNext` step.  The Go `serveNext` body performs no
effect other than (at most one) call `h.ServeRoboHTTP(w, &Request\x7bhr, q.self,
q\x7d)` — it never writes to the response writer itself — so the embedding of a
step records either the one handler invoked together with the queue state at
the moment of the call (the invoked request view carries that state's `self`
scope as its `Params` and that same queue as its bound continuation), or that
the step returned without invoking anything, or that it panicked on an
out-of-range slice access / nil-pointer write. -/
inductive StepResult : Type where
  | invoked (h : Handler) (q : queue)
  | exhausted (q : queue)
  | panicked
deriving Repr, DecidableEq

/-- The route-scanning loop of `queue.serveNext` (src/mux.go lines 164-181),
run only when `q.handlers` is empty: pop routes from the front, discard the
ones whose `Check` fails; at the first success, install all but the matched
route's first handler as the remaining handlers, install the returned scope
(its parent re-pointed at the queue's ambient parent) as the current scope,
and invoke the first handler.  `r.handlers[1:]` and `r.handlers[0]` panic
when the matched route's handler slice is empty, and `q.self.parent = ...`
panics when `Check` returned a nil scope with `true`; both are `.panicked`. -/
def serveNextLoop (parent self : Option Parameters) (method path : String) :
    List route → StepResult
  | [] => .exhausted ⟨[], [], parent, self⟩
  | r :: rs =>
    match r.Check method path with
    | (true, some params) =>
      match r.handlers with
      | h0 :: hrest => .invoked h0 ⟨hrest, rs, parent, some (params.withParent parent)⟩
      | [] => .panicked
    | (true, none) => .panicked
    | (false, _) => serveNextLoop parent self method path rs

/-- `queue.serveNext` (src/mux.go lines 153-182) as a single dispatch step on
the queue state, given the request's method and path (the Go code reads them
from `hr.Method` and `hr.URL.Path`): when handlers remain in the current
route, pop and invoke the front one; otherwise scan the remaining routes. -/
def queue.serveNext (q : queue) (method path : String) : StepResult :=
  match q.handlers with
  | h :: rest => .invoked h ⟨rest, q.routes, q.parent, q.self⟩
  | [] => serveNextLoop q.parent q.self method path q.routes

/-- The Mux type of src/mux.go lines 60-62: an ordered route registry. -/
structure Mux : Type where
  routes : List route
deriving Repr, DecidableEq

/-- The outcome of a `Mux.Add` call: normal return, or a panic with the
source's panic message. -/
inductive AddOutcome : Type where
  | ok
  | panicked (msg : String)
deriving Repr, DecidableEq

/-- The handler-validation loop of `Mux.Add` (src/mux.go lines 80-91): the
type switch adapting one argument into the internal `Handler` type, `none`
embedding the `default: panic("not a valid handler")` case. -/
def adapt : HandlerArg → Option Handler
  | .roboHandler i => some (.handler i)
  | .roboFunc i => some (.handlerFunc i)
  | .httpHandler i => some (.httpHandler i)
  | .httpFunc i => some (.httpHandler i)
  | .invalid _ => none

/-- The `clean` list built by `Mux.Add`'s loop (src/mux.go lines 77-92):
adapt each argument in order, aborting at the first invalid one. -/
def validateHandlers : List HandlerArg → Option (List Handler)
  | [] => some []
  | a :: rest =>
    match adapt a with
    | none => none
    | some c => (validateHandlers rest).map (fun cs => c :: cs)

/-- `Mux.Add` (src/mux.go lines 71-95) as a state transition returning the
mux state at exit together with the outcome.  The source panics before any
mutation (`m.routes` is only assigned on line 94, after the guard and the
validation loop), so in the panic branches the state at the panic point is
the entry state. -/
def Mux.addRun (m : Mux) (method pattern : String) (handlers : List HandlerArg) :
    Mux × AddOutcome :=
  if handlers.length = 0 then (m, .panicked "no handlers provided")
  else
    match validateHandlers handlers with
    | none => (m, .panicked "not a valid handler")
    | some clean => (⟨m.routes ++ [newRoute method pattern clean]⟩, .ok)

/-- `Mux.Add` viewed through its result alone: `none` embeds a panic. -/
def Mux.Add (m : Mux) (method pattern : String) (handlers : List HandlerArg) :
    Option Mux :=
  match m.addRun method pattern handlers with
  | (m2, .ok) => some m2
  | (_, .panicked _) => none

/-- The request view of src/mux.go lines 39-47, restricted to what the
dispatch core reads: the method and path of the wrapped `http.Request`, and
the `Params` scope (nil for a request arriving from plain `net/http`). -/
structure Request : Type where
  method : String
  path : String
  Params : Option Parameters
deriving Repr, DecidableEq

/-- `Mux.ServeRoboHTTP` (src/mux.go lines 99-102): build the queue
`queue\x7bnil, m.routes, r.Params, nil\x7d` — empty current-handler list, the
full route list, the incoming request's scope as parent, no current scope —
and run `serveNext` on it once. -/
def Mux.ServeRoboHTTP (m : Mux) (r : Request) : StepResult :=
  (queue.mk [] m.routes r.Params none).serveNext r.method r.path

/-- `Mux.ServeHTTP` (src/mux.go lines 106-108): wrap the plain request
(`&Request\x7bRequest: r\x7d`, so `Params` is nil) and delegate to
`ServeRoboHTTP`. -/
def Mux.ServeHTTP (m : Mux) (method path : String) : StepResult :=
  m.ServeRoboHTTP ⟨method, path, none⟩

/-- When every remaining route fails its check, the route-scanning loop
consumes all routes and returns without invoking anything. -/
lemma serveNextLoop_all_fail (parent self : Option Parameters) (method path : String) :
    ∀ routes : List route, (∀ r ∈ routes, (r.Check method path).1 = false) →
      serveNextLoop parent self method path routes = .exhausted ⟨[], [], parent, self⟩ := by
  intro routes
  induction routes with
  | nil => intro _; rfl
  | cons r rs ih =>
    intro h
    have hr : (r.Check method path).1 = false := h r (List.mem_cons_self r rs)
    have hrs : ∀ r2 ∈ rs, (r2.Check method path).1 = false :=
      fun r2 hm => h r2 (List.mem_cons_of_mem r hm)
    rcases hc : r.Check method path with ⟨b, op⟩
    rw [hc] at hr
    simp only at hr
    subst hr
    simp [serveNextLoop, hc, ih hrs]

/-- C1: a continuation call on a queue with no remaining handlers, none of
whose remaining routes matches, invokes no handler, panics on nothing, and
returns normally — the only change is that the non-matching routes have been
consumed; in particular `self` and `parent` are untouched and, the step
result being `exhausted`, the response writer receives no write from the
dispatch core. -/
theorem serveNext_exhausted_isNoOp (q : queue) (method path : String)
    (hh : q.handlers = [])
    (hr : ∀ r ∈ q.routes, (r.Check method path).1 = false) :
    q.serveNext method path = .exhausted ⟨[], [], q.parent, q.self⟩ := by
  unfold queue.serveNext
  rw [hh]
  exact serveNextLoop_all_fail q.parent q.self method path q.routes hr

theorem serveNext_exhausted_isNoOp_witness :
    ((queue.mk [] [newRoute "POST" "/a" [Handler.handler 0]] none none).handlers = [])
  ∧ (∀ r ∈ (queue.mk [] [newRoute "POST" "/a" [Handler.handler 0]] none none).routes,
      (r.Check "GET" "/b").1 = false)
  ∧ (queue.mk [] [newRoute "POST" "/a" [Handler.handler 0]] none none).serveNext "GET" "/b"
      = .exhausted ⟨[], [], none, none⟩ :=
  ⟨rfl, by decide,
    serveNext_exhausted_isNoOp (queue.mk [] [newRoute "POST" "/a" [Handler.handler 0]] none none)
      "GET" "/b" rfl (by decide)⟩

/-- C2: a route with pattern `/users/:id` and a matching method matches the
path `/users/42`, binding `id` to `42` in the returned scope, and fails to
match `/users/` (empty final segment). -/
theorem check_usersPattern_example :
    ((newRoute "GET" "/users/:id" [Handler.handler 0]).Check "GET" "/users/42").1 = true
  ∧ (Option.map (fun p => p.Get "id")
      ((newRoute "GET" "/users/:id" [Handler.handler 0]).Check "GET" "/users/42").2)
      = some "42"
  ∧ ((newRoute "GET" "/users/:id" [Handler.handler 0]).Check "GET" "/users/").1 = false := by
  decide

/-- C5: `Parameters.Get` returns this scope's own binding when it is
non-empty (shadowing any parent binding), delegates to the parent when the
own binding is absent or empty, and returns the empty string when no scope
in the chain has a non-empty binding. -/
theorem parameters_get_shadowing_fallback (p : Parameters) (key : String) :
    (p.ownValue key ≠ "" → p.Get key = p.ownValue key)
  ∧ (p.ownValue key = "" →
      p.Get key = (match p.parent with | some q => q.Get key | none => ""))
  ∧ ((∀ q ∈ p.chain, q.ownValue key = "") → p.Get key = "") := by
  induction p with
  | root vs =>
    refine ⟨fun h => ?_, fun h => ?_, fun h => ?_⟩
    · simp only [Parameters.ownValue, Parameters.values] at h
      simp [Parameters.Get, Parameters.ownValue, Parameters.values, h]
    · simp only [Parameters.ownValue, Parameters.values] at h
      simp [Parameters.Get, Parameters.parent, h]
    · have h1 := h (.root vs) (by simp [Parameters.chain])
      simp only [Parameters.ownValue, Parameters.values] at h1
      simp [Parameters.Get, h1]
  | child par vs ih =>
    obtain ⟨ih1, ih2, ih3⟩ := ih
    refine ⟨fun h => ?_, fun h => ?_, fun h => ?_⟩
    · simp only [Parameters.ownValue, Parameters.values] at h
      simp [Parameters.Get, Parameters.ownValue, Parameters.values, h]
    · simp only [Parameters.ownValue, Parameters.values] at h
      simp [Parameters.Get, Parameters.parent, h]
    · have h1 := h (.child par vs) (by simp [Parameters.chain])
      have hrest : ∀ q ∈ par.chain, q.ownValue key = "" :=
        fun q hq => h q (by simp [Parameters.chain]; exact Or.inr hq)
      have h2 := ih3 hrest
      simp only [Parameters.ownValue, Parameters.values] at h1
      simp [Parameters.Get, h1, h2]

theorem parameters_get_shadowing_fallback_witness :
    ((Parameters.child (Parameters.root [("id", "1"), ("x", "7")]) [("id", "2")]).ownValue "id" ≠ ""
      ∧ (Parameters.child (Parameters.root [("id", "1"), ("x", "7")]) [("id", "2")]).Get "id"
          = (Parameters.child (Parameters.root [("id", "1"), ("x", "7")]) [("id", "2")]).ownValue "id")
  ∧ ((Parameters.child (Parameters.root [("id", "1"), ("x", "7")]) [("id", "2")]).ownValue "x" = ""
      ∧ (Parameters.child (Parameters.root [("id", "1"), ("x", "7")]) [("id", "2")]).Get "x"
          = (match (Parameters.child (Parameters.root [("id", "1"), ("x", "7")]) [("id", "2")]).parent with
             | some q => q.Get "x"
             | none => "")) :=
  ⟨⟨by decide, (parameters_get_shadowing_fallback
      (Parameters.child (Parameters.root [("id", "1"), ("x", "7")]) [("id", "2")]) "id").1 (by decide)⟩,
   ⟨by decide, (parameters_get_shadowing_fallback
      (Parameters.child (Parameters.root [("id", "1"), ("x", "7")]) [("id", "2")]) "x").2.1 (by decide)⟩⟩

/-- C6: on a queue whose remaining-handler list is non-empty, one dispatch
step pops exactly the front handler and invokes it — once, with the queue's
current scope as the request's `Params` and the continuation bound to this
same queue — leaving the remaining routes unexamined. -/
theorem serveNext_pops_front_handler (q : queue) (method path : String)
    (h : Handler) (rest : List Handler) (hq : q.handlers = h :: rest) :
    q.serveNext method path = .invoked h ⟨rest, q.routes, q.parent, q.self⟩ := by
  unfold queue.serveNext
  rw [hq]

theorem serveNext_pops_front_handler_witness :
    ((queue.mk [Handler.handler 4, Handler.handler 5]
        [newRoute "GET" "/a" [Handler.handler 0]] none none).handlers
      = Handler.handler 4 :: [Handler.handler 5])
  ∧ (queue.mk [Handler.handler 4, Handler.handler 5]
        [newRoute "GET" "/a" [Handler.handler 0]] none none).serveNext "GET" "/a"
      = .invoked (Handler.handler 4)
          ⟨[Handler.handler 5], [newRoute "GET" "/a" [Handler.handler 0]], none, none⟩ :=
  ⟨rfl, serveNext_pops_front_handler
    (queue.mk [Handler.handler 4, Handler.handler 5]
      [newRoute "GET" "/a" [Handler.handler 0]] none none)
    "GET" "/a" (Handler.handler 4) [Handler.handler 5] rfl⟩

/-- C8: both dispatch entries construct a fresh queue seeded with an empty
current-handler list and the full ordered route list and run one `serveNext`
step on it; entering through `ServeRoboHTTP` seeds the queue's ambient
parent with the incoming request's scope (non-nil for a nested dispatch),
while the plain `ServeHTTP` entry wraps the request with a nil scope, so the
queue has no parent scope. -/
theorem serve_entry_seeds_queue :
    (∀ (m : Mux) (r : Request),
      m.ServeRoboHTTP r = (queue.mk [] m.routes r.Params none).serveNext r.method r.path)
  ∧ (∀ (m : Mux) (method path : String),
      m.ServeHTTP method path
        = m.ServeRoboHTTP ⟨method, path, none⟩
      ∧ m.ServeHTTP method path
        = (queue.mk [] m.routes none none).serveNext method path) :=
  ⟨fun _ _ => rfl, fun _ _ _ => ⟨rfl, rfl⟩⟩

/-- The wildcard-placement check equals scanning all but the last segment. -/
lemma wildcardNotLast_eq_dropLast_any (segs : List Segment) :
    wildcardNotLast segs = segs.dropLast.any isWildcardSeg := by
  induction segs with
  | nil => rfl
  | cons s rest ih =>
    cases rest with
    | nil => rfl
    | cons s2 rest2 =>
      simp only [wildcardNotLast, List.dropLast_cons₂, List.any_cons, ih]

/-- The duplicate-name check decides non-Nodup. -/
lemma hasDup_eq_true_iff (names : List String) :
    hasDup names = true ↔ ¬ names.Nodup := by
  induction names with
  | nil => simp [hasDup]
  | cons n rest ih =>
    simp [hasDup, List.nodup_cons, ih, List.elem_iff]
    tauto

/-- C3: registration rejects, at registration time, every pattern that is
empty, has a Wildcard segment before the last segment, repeats a captured
name, or captures an empty name (spec section 4.1 failure conditions;
modelled from the spec, since `newRoute`'s documented validation is an
`@todo` stub in the source). -/
theorem compile_rejects_malformed_patterns (method pattern : String)
    (handlers : List Handler)
    (hbad : pattern = ""
      ∨ (∃ s ∈ (patternSegments pattern).dropLast, isWildcardSeg s = true)
      ∨ ¬ (patternNames pattern).Nodup
      ∨ "" ∈ patternNames pattern) :
    newRouteChecked method pattern handlers = none := by
  unfold newRouteChecked compilePattern
  by_cases hp : pattern = ""
  · simp [hp]
  · rw [if_neg hp]
    rcases hbad with h | h | h | h
    · exact absurd h hp
    · have hw : wildcardNotLast (patternSegments pattern) = true := by
        rw [wildcardNotLast_eq_dropLast_any]
        exact List.any_eq_true.mpr (by simpa using h)
      simp [hw]
    · have hd : hasDup ((patternSegments pattern).filterMap segName) = true :=
        (hasDup_eq_true_iff _).mpr (by simpa [patternNames] using h)
      simp [hd]
    · have he : ((patternSegments pattern).filterMap segName).any (fun n => n == "") = true := by
        refine List.any_eq_true.mpr ⟨"", ?_, by simp⟩
        simpa [patternNames] using h
      simp [he]

theorem compile_rejects_malformed_patterns_witness :
    (∃ s ∈ (patternSegments "/a/*w/b").dropLast, isWildcardSeg s = true)
  ∧ newRouteChecked "GET" "/a/*w/b" [Handler.handler 0] = none :=
  ⟨by decide,
    compile_rejects_malformed_patterns "GET" "/a/*w/b" [Handler.handler 0]
      (Or.inr (Or.inl (by decide)))⟩

/-- C7: with no handlers left, one dispatch step scans remaining routes from
the front in order, discards each failing route, and at the first route whose
check succeeds it installs the returned scope (its parent re-pointed at the
queue's ambient parent) as the current scope, installs all but that route's
first handler as the remaining handlers, and invokes that first handler. -/
theorem serveNext_first_matching_route (q : queue) (method path : String)
    (pre post : List route) (r : route) (h0 : Handler) (hs : List Handler)
    (s : Parameters)
    (hq : q.handlers = [])
    (hroutes : q.routes = pre ++ r :: post)
    (hpre : ∀ r2 ∈ pre, (r2.Check method path).1 = false)
    (hmatch : r.Check method path = (true, some s))
    (hhandlers : r.handlers = h0 :: hs) :
    q.serveNext method path
      = .invoked h0 ⟨hs, post, q.parent, some (s.withParent q.parent)⟩ := by
  have hloop : ∀ pre2 : List route, (∀ r2 ∈ pre2, (r2.Check method path).1 = false) →
      serveNextLoop q.parent q.self method path (pre2 ++ r :: post)
        = .invoked h0 ⟨hs, post, q.parent, some (s.withParent q.parent)⟩ := by
    intro pre2
    induction pre2 with
    | nil => intro _; simp [serveNextLoop, hmatch, hhandlers]
    | cons a as ih =>
      intro hall
      have ha : (a.Check method path).1 = false := hall a (List.mem_cons_self a as)
      rcases hc : a.Check method path with ⟨b, op⟩
      rw [hc] at ha
      simp only at ha
      subst ha
      simp only [List.cons_append, serveNextLoop, hc]
      exact ih (fun r2 hm => hall r2 (List.mem_cons_of_mem a hm))
  unfold queue.serveNext
  rw [hq, hroutes]
  exact hloop pre hpre

theorem serveNext_first_matching_route_witness :
    (queue.mk [] [newRoute "GET" "/x" [Handler.handler 1],
        newRoute "GET" "/users/:id" [Handler.handler 2, Handler.handler 3]]
        none none).serveNext "GET" "/users/42"
      = .invoked (Handler.handler 2)
          ⟨[Handler.handler 3], [], none, some (Parameters.root [("id", "42")])⟩ :=
  serveNext_first_matching_route
    (queue.mk [] [newRoute "GET" "/x" [Handler.handler 1],
      newRoute "GET" "/users/:id" [Handler.handler 2, Handler.handler 3]] none none)
    "GET" "/users/42"
    [newRoute "GET" "/x" [Handler.handler 1]] []
    (newRoute "GET" "/users/:id" [Handler.handler 2, Handler.handler 3])
    (Handler.handler 2) [Handler.handler 3] (Parameters.root [("id", "42")])
    rfl rfl (by decide) (by decide) rfl

/-- Validation fails exactly when some argument fails to adapt. -/
lemma validateHandlers_eq_none_of_bad (args : List HandlerArg) :
    (∃ a ∈ args, adapt a = none) → validateHandlers args = none := by
  induction args with
  | nil => rintro ⟨a, ha, _⟩; simp at ha
  | cons a as ih =>
    rintro ⟨b, hb, hbad⟩
    rcases List.mem_cons.mp hb with rfl | hb2
    · simp [validateHandlers, hbad]
    · unfold validateHandlers
      rcases ha : adapt a with _ | c
      · rfl
      · simp [ih ⟨b, hb2, hbad⟩]

/-- Validation succeeds when every argument adapts. -/
lemma validateHandlers_eq_some_of_good (args : List HandlerArg) :
    (∀ a ∈ args, adapt a ≠ none) → ∃ cs, validateHandlers args = some cs := by
  induction args with
  | nil => intro _; exact ⟨[], rfl⟩
  | cons a as ih =>
    intro h
    rcases ha : adapt a with _ | c
    · exact absurd ha (h a (List.mem_cons_self a as))
    · obtain ⟨cs, hcs⟩ := ih (fun b hb => h b (List.mem_cons_of_mem a hb))
      exact ⟨c :: cs, by simp [validateHandlers, ha, hcs]⟩

/-- Validation preserves the number of handlers. -/
lemma validateHandlers_length (args : List HandlerArg) (cs : List Handler)
    (h : validateHandlers args = some cs) : cs.length = args.length := by
  induction args generalizing cs with
  | nil =>
    simp only [validateHandlers, Option.some.injEq] at h
    subst h; rfl
  | cons a as ih =>
    unfold validateHandlers at h
    rcases ha : adapt a with _ | c
    · rw [ha] at h; exact absurd h (by simp)
    · rw [ha] at h
      rcases hv : validateHandlers as with _ | cs2
      · rw [hv] at h; exact absurd h (by simp)
      · rw [hv] at h
        have hcs : cs = c :: cs2 := by simpa using h.symm
        subst hcs
        simp [ih cs2 hv]

/-- C4: `Mux.Add` panics (embedded as `none`) when given zero handler
arguments, panics when some argument has none of the four accepted shapes,
and otherwise appends exactly one new route — carrying the adapted handler
list — at the end of the registry. -/
theorem add_validates_and_appends (m : Mux) (method pattern : String)
    (args : List HandlerArg) :
    (args = [] → m.Add method pattern args = none)
  ∧ ((∃ a ∈ args, adapt a = none) → m.Add method pattern args = none)
  ∧ (args ≠ [] → (∀ a ∈ args, adapt a ≠ none) →
      ∃ clean, validateHandlers args = some clean ∧
        m.Add method pattern args = some ⟨m.routes ++ [newRoute method pattern clean]⟩) := by
  refine ⟨fun h => ?_, fun h => ?_, fun h1 h2 => ?_⟩
  · subst h; rfl
  · have hv := validateHandlers_eq_none_of_bad args h
    have hne : args ≠ [] := by
      rintro rfl
      obtain ⟨a, ha, _⟩ := h
      simp at ha
    have hlen : ¬ args.length = 0 := by simpa using hne
    simp [Mux.Add, Mux.addRun, hlen, hv]
  · obtain ⟨clean, hclean⟩ := validateHandlers_eq_some_of_good args h2
    have hlen : ¬ args.length = 0 := by simpa using h1
    exact ⟨clean, hclean, by simp [Mux.Add, Mux.addRun, hlen, hclean]⟩

theorem add_validates_and_appends_witness :
    ([HandlerArg.roboFunc 1] ≠ ([] : List HandlerArg))
  ∧ (∀ a ∈ [HandlerArg.roboFunc 1], adapt a ≠ none)
  ∧ ∃ clean, validateHandlers [HandlerArg.roboFunc 1] = some clean ∧
      (Mux.mk []).Add "GET" "/users/:id" [HandlerArg.roboFunc 1]
        = some ⟨[] ++ [newRoute "GET" "/users/:id" clean]⟩ :=
  ⟨by decide, by decide,
    (add_validates_and_appends (Mux.mk []) "GET" "/users/:id"
      [HandlerArg.roboFunc 1]).2.2 (by decide) (by decide)⟩

/-- C9: `Mux.Add` is atomic on failure — all validation happens before the
single append, so whenever a call panics the registry is exactly what it was
before the call. -/
theorem add_atomic_on_panic (m : Mux) (method pattern : String)
    (args : List HandlerArg) (msg : String)
    (h : (m.addRun method pattern args).2 = .panicked msg) :
    (m.addRun method pattern args).1 = m := by
  unfold Mux.addRun at h ⊢
  by_cases h0 : args.length = 0
  · simp [h0]
  · rw [if_neg h0] at h ⊢
    rcases hv : validateHandlers args with _ | cs
    · simp [hv]
    · rw [hv] at h
      simp at h

theorem add_atomic_on_panic_witness :
    (((Mux.mk [newRoute "GET" "/a" [Handler.handler 0]]).addRun "POST" "/b"
        [HandlerArg.invalid 9]).2 = AddOutcome.panicked "not a valid handler")
  ∧ (((Mux.mk [newRoute "GET" "/a" [Handler.handler 0]]).addRun "POST" "/b"
        [HandlerArg.invalid 9]).1 = Mux.mk [newRoute "GET" "/a" [Handler.handler 0]]) :=
  ⟨by decide,
    add_atomic_on_panic (Mux.mk [newRoute "GET" "/a" [Handler.handler 0]])
      "POST" "/b" [HandlerArg.invalid 9] "not a valid handler" (by decide)⟩

/-- The muxes reachable by starting from the zero Mux (src/mux.go lines
58-59: "the zero value for a Mux is ... ready to use") and calling `Add`
any number of times, keeping the state each call exits with. -/
inductive BuiltByAdd : Mux → Prop where
  | zero : BuiltByAdd ⟨[]⟩
  | add (m : Mux) (method pattern : String) (args : List HandlerArg) :
      BuiltByAdd m → BuiltByAdd (m.addRun method pattern args).1

/-- Every route of a Mux populated solely through `Add` has a non-empty
handler chain. -/
lemma builtByAdd_handlers_ne_nil (m : Mux) (hm : BuiltByAdd m) :
    ∀ r ∈ m.routes, r.handlers ≠ [] := by
  induction hm with
  | zero => intro r hr; simp at hr
  | add m method pattern args hprev ih =>
    intro r hr
    unfold Mux.addRun at hr
    by_cases h0 : args.length = 0
    · rw [if_pos h0] at hr
      exact ih r hr
    · rw [if_neg h0] at hr
      rcases hv : validateHandlers args with _ | clean
      · rw [hv] at hr
        exact ih r hr
      · rw [hv] at hr
        simp only [List.mem_append, List.mem_singleton] at hr
        rcases hr with hr | hr
        · exact ih r hr
        · subst hr
          have hlen := validateHandlers_length args clean hv
          intro hnil
          apply h0
          rw [← hlen]
          simpa [newRoute] using congrArg List.length hnil

/-- A check produces either a failure without a scope or a success with
one. -/
lemma check_shape (r : route) (method path : String) :
    r.Check method path = (false, none)
  ∨ ∃ s, r.Check method path = (true, some s) := by
  unfold route.Check
  split
  · exact Or.inl rfl
  · split
    · split
      · exact Or.inl rfl
      · exact Or.inr ⟨_, rfl⟩
    · exact Or.inl rfl

/-- A check that returns true always returns a scope (the contract stated in
src/mux.go lines 132-133, holding for the spec-modelled matcher). -/
lemma check_true_scope (r : route) (method path : String)
    (h : (r.Check method path).1 = true) :
    ∃ s, (r.Check method path).2 = some s := by
  rcases check_shape r method path with hc | ⟨s, hc⟩
  · rw [hc] at h
    simp at h
  · rw [hc]
    exact ⟨s, rfl⟩

/-- The scanning loop cannot panic when every remaining route has a
non-empty handler chain. -/
lemma serveNextLoop_ne_panicked (parent self : Option Parameters)
    (method path : String) :
    ∀ routes : List route, (∀ r ∈ routes, r.handlers ≠ []) →
      serveNextLoop parent self method path routes ≠ .panicked := by
  intro routes
  induction routes with
  | nil => intro _; simp [serveNextLoop]
  | cons r rs ih =>
    intro hall
    rcases hc : r.Check method path with ⟨b, op⟩
    cases b
    · simp only [serveNextLoop, hc]
      exact ih (fun r2 hm => hall r2 (List.mem_cons_of_mem r hm))
    · obtain ⟨s, hs⟩ := check_true_scope r method path (by rw [hc])
      rw [hc] at hs
      simp only at hs
      subst hs
      have hne := hall r (List.mem_cons_self r rs)
      rcases hh : r.handlers with _ | ⟨h0, hrest⟩
      · exact absurd hh hne
      · simp [serveNextLoop, hc, hh]

/-- C10: a Mux populated solely through `Add` satisfies the invariant that
every stored route has a non-empty handler chain, and under that invariant a
dispatch step never panics — the accesses `r.handlers[0]` and
`r.handlers[1:]` on a matched route are always in bounds. -/
theorem add_routes_nonempty_handlers (m : Mux) (hm : BuiltByAdd m) :
    (∀ r ∈ m.routes, r.handlers ≠ [])
  ∧ (∀ (q : queue) (method path : String),
      (∀ r ∈ q.routes, r ∈ m.routes) → q.serveNext method path ≠ .panicked) := by
  refine ⟨builtByAdd_handlers_ne_nil m hm, fun q method path hsub => ?_⟩
  unfold queue.serveNext
  rcases hq : q.handlers with _ | ⟨h, rest⟩
  · exact serveNextLoop_ne_panicked q.parent q.self method path q.routes
      (fun r hr => builtByAdd_handlers_ne_nil m hm r (hsub r hr))
  · simp

theorem add_routes_nonempty_handlers_witness :
    (newRoute "GET" "/a" [Handler.handler 0]).handlers ≠ []
  ∧ (queue.mk [] [newRoute "GET" "/a" [Handler.handler 0]] none none).serveNext "GET" "/a"
      ≠ .panicked :=
  ⟨(add_routes_nonempty_handlers
      (((Mux.mk []).addRun "GET" "/a" [HandlerArg.roboHandler 0]).1)
      (BuiltByAdd.add (Mux.mk []) "GET" "/a" [HandlerArg.roboHandler 0] BuiltByAdd.zero)).1
      (newRoute "GET" "/a" [Handler.handler 0]) (by decide),
   (add_routes_nonempty_handlers
      (((Mux.mk []).addRun "GET" "/a" [HandlerArg.roboHandler 0]).1)
      (BuiltByAdd.add (Mux.mk []) "GET" "/a" [HandlerArg.roboHandler 0] BuiltByAdd.zero)).2
      (queue.mk [] [newRoute "GET" "/a" [Handler.handler 0]] none none) "GET" "/a"
      (by decide)⟩
